import Mathlib

/-!
# Verification of the deck-test build/download/examples tool

Shallow embedding of the Go sources of `joeblew999/deck-test` (a CLI that
builds a toolchain of binaries, downloads release binaries, and renders
decksh examples), together with proofs about the embedded functions.

Conventions of the embedding:
* Go strings are `String` (or `List Char` where character-level reasoning
  about trimming/splitting is needed).
* Go `error` results are `Option String` (`none` = nil error) or `Except`.
* Filesystem and subprocess outcomes are abstracted into explicit boolean
  oracles passed as arguments: the embedded function branches on the oracle
  exactly where the Go code branches on the corresponding `err != nil`.
* `runtime.GOOS` / `runtime.GOARCH` become explicit `goos goarch` parameters.
-/

namespace DeckTest

/-- Build target, from the `buildTarget` constants in the source
(`targetNative`, `targetWASM`, `targetWASI`). -/
inductive buildTarget where
  | native
  | wasm
  | wasi
deriving DecidableEq, Repr

/-- One toolchain entry, from `type binSpec struct` in the source. -/
structure binSpec where
  name : String
  pkg : String
  repo : String
  wasmSupport : Bool
  wasiSupport : Bool
  requiresUI : Bool
deriving DecidableEq, Repr

/-- Outcome of one build, from `type buildResult struct`.  The Go `err error`
field is `none` for a nil error and `some msg` otherwise. -/
structure buildResult where
  binary : String
  target : buildTarget
  path : String
  err : Option String
deriving DecidableEq, Repr

/-- `getRequirement`: requirement string used in unsupported-target errors. -/
def getRequirement (spec : binSpec) : String :=
  if spec.requiresUI then "UI/graphics" else "platform support"

/-- `filepath.Join(dir, file)` for a non-empty relative file component:
the source only joins simple components, where Join is concatenation with a
separator. -/
def joinPath (dir file : String) : String :=
  dir ++ "/" ++ file

/-- `buildFilename` from the source; `runtime.GOOS` / `runtime.GOARCH` are
the explicit `goos` / `goarch` arguments. -/
def buildFilename (goos goarch : String) (name : String) (target : buildTarget) : String :=
  match target with
  | .wasm => name ++ "-wasm.wasm"
  | .wasi => name ++ "-wasi.wasm"
  | .native =>
      let ext := if goos = "windows" then ".exe" else ""
      name ++ "-" ++ goos ++ "-" ++ goarch ++ ext

/-- Outcomes of the three fallible steps inside `buildBinary`
(`os.MkdirAll`, `filepath.Abs`, `cmd.Run` of the `go build` command),
abstracted as booleans (`true` = the Go call returned a nil error). -/
structure buildEnv where
  mkdirOk : Bool
  absOk : Bool
  buildOk : Bool
deriving DecidableEq, Repr

/-- `buildBinary` from the source, step for step.  Returns the `buildResult`
together with a flag recording whether the toolchain build command
(`exec.CommandContext(ctx, cfg.goCmd, "build", ...)`) was invoked. -/
def buildBinary (goos goarch : String) (env : buildEnv) (spec : binSpec)
    (target : buildTarget) (outputDir : String) : buildResult × Bool :=
  -- result := buildResult{binary: spec.name, target: target}
  let base : buildResult := { binary := spec.name, target := target, path := "", err := none }
  -- Check target support
  if target = .wasm ∧ spec.wasmSupport = false then
    ({ base with err := some ("WASM not supported (requires " ++ getRequirement spec ++ ")") },
     false)
  else if target = .wasi ∧ spec.wasiSupport = false then
    ({ base with err := some ("WASI not supported (requires " ++ getRequirement spec ++ ")") },
     false)
  else
    -- filename := cfg.buildFilename(spec.name, target); outPath := filepath.Join(...)
    let filename := buildFilename goos goarch spec.name target
    let outPath := joinPath outputDir filename
    let withPath := { base with path := outPath }
    if env.mkdirOk = false then
      ({ withPath with err := some "mkdir" }, false)
    else if env.absOk = false then
      ({ withPath with err := some "abs path" }, false)
    else if env.buildOk = false then
      ({ withPath with err := some "build failed" }, true)
    else
      (withPath, true)

/-- `buildAll` from the source: the `for spec { for target { results =
append(results, ...) } }` double loop, with a per-pair oracle `envf`.
The second component is the Go function's `error` return. -/
def buildAll (goos goarch : String) (envf : binSpec → buildTarget → buildEnv)
    (toolchain : List binSpec) (targets : List buildTarget) (outputDir : String) :
    List buildResult × Option String :=
  let results := toolchain.foldl
    (fun acc spec => targets.foldl
      (fun acc2 target =>
        acc2 ++ [(buildBinary goos goarch (envf spec target) spec target outputDir).1])
      acc)
    []
  (results, none)

/-- `getBinaryPath` from the source:
`filepath.Join(cfg.distDir, name+"-"+runtime.GOOS+"-"+runtime.GOARCH)`. -/
def getBinaryPath (distDir goos goarch name : String) : String :=
  joinPath distDir (name ++ "-" ++ goos ++ "-" ++ goarch)

/-! ## Release-download model

The per-binary body of the download loop in `downloadReleaseBinaries`
(src/binaries.go).  Timestamps are modelled as `Int` (nanoseconds since the
epoch); Go's `t.After(u)` is the strict comparison `t > u`.  `localMod` is
`some m` when `os.Stat(destPath)` succeeds (the local file exists, with
modification time `m`); `releaseTime` is `some r` when the release-hosting
CLI reported a timestamp that parsed (Go's zero `time.Time`, kept when the
reported string is empty or `"null"`, is `none`).  `downloadOk` abstracts
the exit status of the `gh release download` command. -/

/-- Observable per-binary effects of one download-loop iteration. -/
inductive dlEffect where
  | skip
  | download
  | chmod755
deriving DecidableEq, Repr

/-- One iteration of the download loop of `downloadReleaseBinaries`,
returning the trace of effects for that binary.  Mirrors:
`if err == nil && !releaseTime.IsZero() { if localModTime.After(releaseTime)
{ skip } } else if err == nil { skip }`, then the download command, then
`os.Chmod(destPath, 0755)` when the download succeeded. -/
def downloadStep (localMod releaseTime : Option Int) (downloadOk : Bool) :
    List dlEffect :=
  let attempt : List dlEffect :=
    if downloadOk then [.download, .chmod755] else [.download]
  match localMod, releaseTime with
  | some m, some r => if m > r then [.skip] else attempt
  | some _, none => [.skip]
  | none, _ => attempt

/-! ## Example-reference parsing (src/util.go)

`parseExample` and `normalizeExampleName` do character-level trimming and
splitting, so this part of the embedding works on `List Char`. -/

/-- Go's `unicode.IsSpace` (the set trimmed by `strings.TrimSpace`):
'\t' '\n' '\v' '\f' '\r' ' ' U+0085 U+00A0 and the Unicode `White_Space`
code points above Latin-1. -/
def goIsSpace (c : Char) : Bool :=
  c = ' ' || c = Char.ofNat 9 || c = Char.ofNat 10 || c = Char.ofNat 11 ||
  c = Char.ofNat 12 || c = Char.ofNat 13 || c = Char.ofNat 0x85 ||
  c = Char.ofNat 0xA0 || c = Char.ofNat 0x1680 ||
  (Char.ofNat 0x2000 ≤ c && c ≤ Char.ofNat 0x200A) ||
  c = Char.ofNat 0x2028 || c = Char.ofNat 0x2029 || c = Char.ofNat 0x202F ||
  c = Char.ofNat 0x205F || c = Char.ofNat 0x3000

/-- Leading-whitespace removal (the left half of `strings.TrimSpace`). -/
def dropLead (l : List Char) : List Char :=
  l.dropWhile goIsSpace

/-- `strings.TrimSpace`: drop leading whitespace, then trailing whitespace. -/
def trim (l : List Char) : List Char :=
  ((dropLead l).reverse.dropWhile goIsSpace).reverse

/-- `strings.Contains(raw, "/")`. -/
def hasSlash (l : List Char) : Bool :=
  l.any (fun c => c = '/')

/-- The predicate `strings.SplitN(raw, "/", 2)` splits on: not a slash. -/
def notSlash (c : Char) : Bool :=
  !(c = '/')

/-- The default example source `"deckviz"`. -/
def dz : List Char := "deckviz".toList

/-- The example source `"dubois"`. -/
def db : List Char := "dubois".toList

/-- `parseExample` from src/util.go: trim, default `("deckviz", "")` on
empty, split at the first slash with an empty source defaulting to
`"deckviz"` and the name trimmed, and default source `"deckviz"` for a bare
name. -/
def parseExample (raw : List Char) : List Char × List Char :=
  let r := trim raw
  if r = [] then (dz, [])
  else if hasSlash r then
    let src := r.takeWhile notSlash
    let name := trim (r.dropWhile notSlash).tail
    (if src = [] then dz else src, name)
  else (dz, r)

/-- `normalizeExampleName` from src/util.go. -/
def normalizeExampleName (raw : List Char) : List Char :=
  let p := parseExample raw
  if p.1 = dz then dz ++ '/' :: p.2
  else p.1 ++ '/' :: p.2

/-! ## Example batch runner (src/examples.go) -/

/-- `filepath.Join` on `List Char` paths (simple relative components). -/
def joinPathL (dir file : List Char) : List Char :=
  dir ++ '/' :: file

/-- Abstraction of the filesystem/subprocess environment seen by
`runExamples`: the two data-repository directories from the config, and
per-example oracles.  `dshExists source name` abstracts
`os.Stat(filepath.Join(dir, name+".dsh"))` (the directory is a function of
`source` and `name`, so the oracle is keyed on those); `lintOk` abstracts
the `dshlint` invocation of `runTool` (including resolving the tool);
`renderOk` abstracts `renderDeck` (resolving `decksh`, creating the output
file, running the command). `true` means the Go call returned a nil error. -/
structure exEnv where
  deckvizDir : List Char
  duboisDir : List Char
  dshExists : List Char → List Char → Bool
  lintOk : List Char → List Char → Bool
  renderOk : List Char → List Char → Bool

/-- `exampleDir` from src/examples.go: resolve a source to a directory,
failing on unknown sources. -/
def exampleDir (env : exEnv) (source name : List Char) :
    Except (List Char) (List Char) :=
  if source = dz then .ok (joinPathL env.deckvizDir name)
  else if source = db then .ok (joinPathL env.duboisDir name)
  else .error ("unknown example source".toList)

/-- Go map assignment `results[k] = v` on an association list. -/
def mapSet (rs : List (List Char × List Char)) (k v : List Char) :
    List (List Char × List Char) :=
  match rs with
  | [] => [(k, v)]
  | (k0, v0) :: rest =>
      if k0 = k then (k, v) :: rest else (k0, v0) :: mapSet rest k v

/-- The loop of `runExamples`, with the `results` accumulator explicit.
Per iteration: parse the reference, resolve the directory (unknown source
aborts with its error), skip the reference when the `.dsh` file is absent,
abort on a lint or render failure, and otherwise record the output path
under the normalized reference.  After the loop, zero results is the
`"no examples rendered"` error.  The abstract oracles stand where the Go
code checks the corresponding `err != nil`; the error payloads name the
failing step. -/
def runExamplesLoop (env : exEnv) :
    List (List Char) → List (List Char × List Char) →
    Except (List Char) (List (List Char × List Char))
  | [], results =>
      if results = [] then .error ("no examples rendered".toList)
      else .ok results
  | raw :: rest, results =>
      let p := parseExample raw
      match exampleDir env p.1 p.2 with
      | .error e => .error e
      | .ok dir =>
          if env.dshExists p.1 p.2 = false then
            -- fmt.Printf("Skipping %s: %v\n", ...); continue
            runExamplesLoop env rest results
          else if env.lintOk p.1 p.2 = false then
            .error ("dshlint failed".toList)
          else if env.renderOk p.1 p.2 = false then
            .error ("render failed".toList)
          else
            runExamplesLoop env rest
              (mapSet results (normalizeExampleName raw)
                (joinPathL dir (p.2 ++ ".xml".toList)))

/-- `runExamples` from src/examples.go. -/
def runExamples (env : exEnv) (examples : List (List Char)) :
    Except (List Char) (List (List Char × List Char)) :=
  runExamplesLoop env examples []

/-- Whether an `Except` result is a success (a nil Go error). -/
def resultIsOk {α β : Type} : Except α β → Bool
  | .ok _ => true
  | .error _ => false

/-! ## Concrete instances used by counterexamples and witnesses -/

/-- The `ebdeck` toolchain entry from `initToolchain` (native-only UI app). -/
def ebdeckSpec : binSpec :=
  { name := "ebdeck", pkg := "github.com/ajstarks/ebcanvas/ebdeck",
    repo := "ebcanvas", wasmSupport := false, wasiSupport := false,
    requiresUI := true }

/-- The `decksh` toolchain entry from `initToolchain`. -/
def deckshSpec : binSpec :=
  { name := "decksh", pkg := "github.com/ajstarks/decksh/cmd/decksh",
    repo := "decksh", wasmSupport := true, wasiSupport := true,
    requiresUI := false }

/-- An environment where every oracle succeeds. -/
def exEnvAllOk : exEnv :=
  { deckvizDir := ".data/deckviz".toList, duboisDir := ".data/dubois-data-portraits".toList,
    dshExists := fun _ _ => true, lintOk := fun _ _ => true,
    renderOk := fun _ _ => true }

/-- An environment where linting the example named `bad` fails and
everything else succeeds. -/
def exEnvLintBad : exEnv :=
  { exEnvAllOk with lintOk := fun _ name => !(name = "bad".toList) }

/-- An environment where no example directory contains its `.dsh` script. -/
def exEnvNoDsh : exEnv :=
  { exEnvAllOk with dshExists := fun _ _ => false }

/-! ## Helper lemmas -/

/-- `joinPath` never returns the empty string (it contains the separator). -/
theorem joinPath_ne_empty (dir file : String) : joinPath dir file ≠ "" := by
  intro h
  rw [joinPath, String.ext_iff] at h
  simp only [String.data_append] at h
  rcases List.append_eq_nil.mp h with ⟨h1, _⟩
  rcases List.append_eq_nil.mp h1 with ⟨_, h3⟩
  exact absurd h3 (by decide)

/-- A string is never equal to itself extended by a non-empty suffix. -/
theorem self_ne_append {s t : String} (h : t ≠ "") : s ≠ s ++ t := by
  intro he
  apply h
  rw [String.ext_iff] at he ⊢
  simp only [String.data_append] at he
  have := List.append_right_eq_self.mp he.symm
  simpa using this

/-- Folding an append-singleton over a list extends the accumulator by the
mapped list. -/
theorem foldl_append_singleton {α β : Type} (f : α → β) :
    ∀ (l : List α) (acc : List β),
      l.foldl (fun a x => a ++ [f x]) acc = acc ++ l.map f := by
  intro l
  induction l with
  | nil => simp
  | cons x xs ih => intro acc; simp [ih]

/-- Folding an append-of-block over a list extends the accumulator by the
flattened blocks. -/
theorem foldl_append_flatMap {α β : Type} (g : α → List β) :
    ∀ (l : List α) (acc : List β),
      l.foldl (fun a x => a ++ g x) acc = acc ++ l.flatMap g := by
  intro l
  induction l with
  | nil => simp
  | cons x xs ih => intro acc; simp [ih]

/-- Dropping leading whitespace is idempotent. -/
theorem dropLead_dropLead (l : List Char) : dropLead (dropLead l) = dropLead l := by
  unfold dropLead
  induction l with
  | nil => rfl
  | cons a t ih =>
      rw [List.dropWhile_cons]
      by_cases h : goIsSpace a = true
      · simpa [h] using ih
      · rw [if_neg h, List.dropWhile_cons, if_neg h]

/-- A list fixed by `dropLead` does not start with whitespace. -/
theorem dropLead_head_not_space {a : Char} {t : List Char}
    (h : dropLead (a :: t) = a :: t) : goIsSpace a = false := by
  cases hs : goIsSpace a with
  | false => rfl
  | true =>
      exfalso
      unfold dropLead at h
      rw [List.dropWhile_cons, if_pos hs] at h
      have hle : (t.dropWhile goIsSpace).length ≤ t.length :=
        (List.dropWhile_sublist goIsSpace).length_le
      have hlen := congrArg List.length h
      simp only [List.length_cons] at hlen
      omega

/-- `dropLead` is the identity on a list starting with a non-space. -/
theorem dropLead_cons_of {a : Char} {t : List Char} (h : goIsSpace a = false) :
    dropLead (a :: t) = a :: t := by
  unfold dropLead
  rw [List.dropWhile_cons, if_neg (by simp [h])]

/-- Trailing-whitespace removal yields a prefix of the list. -/
theorem revDrop_prefix (l : List Char) :
    ∃ t, l = (l.reverse.dropWhile goIsSpace).reverse ++ t := by
  refine ⟨(l.reverse.takeWhile goIsSpace).reverse, ?_⟩
  conv_lhs => rw [← List.reverse_reverse l,
    ← List.takeWhile_append_dropWhile goIsSpace l.reverse]
  rw [List.reverse_append]

/-- Removing trailing whitespace preserves the no-leading-whitespace
property. -/
theorem dropLead_revDrop {l : List Char} (h : dropLead l = l) :
    dropLead (l.reverse.dropWhile goIsSpace).reverse =
      (l.reverse.dropWhile goIsSpace).reverse := by
  obtain ⟨t, ht⟩ := revDrop_prefix l
  cases hr : (l.reverse.dropWhile goIsSpace).reverse with
  | nil => rfl
  | cons b s =>
      rw [hr] at ht
      have hb : goIsSpace b = false := by
        apply dropLead_head_not_space (t := s ++ t)
        rw [← List.cons_append, ← ht]
        exact h
      exact dropLead_cons_of hb

/-- `trim` output has no leading whitespace. -/
theorem dropLead_trim (l : List Char) : dropLead (trim l) = trim l :=
  dropLead_revDrop (dropLead_dropLead l)

/-- `trim` output has no trailing whitespace. -/
theorem dropLead_reverse_trim (l : List Char) :
    dropLead (trim l).reverse = (trim l).reverse := by
  unfold trim
  rw [List.reverse_reverse]
  exact dropLead_dropLead _

/-- `trim` is the identity on a list with neither leading nor trailing
whitespace. -/
theorem trim_of_dropLead {l : List Char} (h1 : dropLead l = l)
    (h2 : dropLead l.reverse = l.reverse) : trim l = l := by
  unfold trim
  rw [h1]
  rw [show l.reverse.dropWhile goIsSpace = l.reverse from h2,
    List.reverse_reverse]

/-- `strings.TrimSpace` is idempotent. -/
theorem trim_trim (l : List Char) : trim (trim l) = trim l :=
  trim_of_dropLead (dropLead_trim l) (dropLead_reverse_trim l)

/-- Everything in `trim l` is in `l`. -/
theorem mem_trim {c : Char} {l : List Char} (h : c ∈ trim l) : c ∈ l := by
  unfold trim dropLead at h
  rw [List.mem_reverse] at h
  have h2 := (List.dropWhile_sublist goIsSpace).mem h
  rw [List.mem_reverse] at h2
  exact (List.dropWhile_sublist goIsSpace).mem h2

/-- Trimming cannot introduce a slash. -/
theorem hasSlash_trim_false {l : List Char} (h : hasSlash l = false) :
    hasSlash (trim l) = false := by
  cases ht : hasSlash (trim l) with
  | false => rfl
  | true =>
      exfalso
      rw [hasSlash, List.any_eq_true] at ht
      obtain ⟨c, hc, hcp⟩ := ht
      have hl : hasSlash l = true := by
        rw [hasSlash, List.any_eq_true]
        exact ⟨c, mem_trim hc, hcp⟩
      rw [h] at hl
      exact Bool.false_ne_true hl

/-- The part of a slash-free list before an appended slash. -/
theorem splitAt_slash (n : List Char) :
    ∀ s : List Char, hasSlash s = false →
      (s ++ '/' :: n).takeWhile notSlash = s ∧
      (s ++ '/' :: n).dropWhile notSlash = '/' :: n := by
  intro s
  induction s with
  | nil =>
      intro _
      constructor
      · rw [List.nil_append, List.takeWhile_cons, if_neg (by decide)]
      · rw [List.nil_append, List.dropWhile_cons, if_neg (by decide)]
  | cons a t ih =>
      intro h
      rw [hasSlash, List.any_cons, Bool.or_eq_false_iff] at h
      obtain ⟨h1, h2⟩ := h
      have ha : notSlash a = true := by
        simp only [notSlash]
        simpa using h1
      obtain ⟨iht, ihd⟩ := ih h2
      constructor
      · rw [List.cons_append, List.takeWhile_cons, if_pos ha, iht]
      · rw [List.cons_append, List.dropWhile_cons, if_pos ha, ihd]

/-- `takeWhile notSlash` output is slash-free. -/
theorem hasSlash_takeWhile (l : List Char) :
    hasSlash (l.takeWhile notSlash) = false := by
  cases h : hasSlash (l.takeWhile notSlash) with
  | false => rfl
  | true =>
      exfalso
      rw [hasSlash, List.any_eq_true] at h
      obtain ⟨c, hc, hcp⟩ := h
      have hns := List.mem_takeWhile_imp hc
      simp only [notSlash] at hns
      simp only [decide_eq_true_eq] at hcp
      simp [hcp] at hns

/-- Re-parsing a canonical `source ++ "/" ++ name` reference recovers the
pair, when the source starts with a non-space and is slash-free and the
name is trimmed. -/
theorem parse_canonical (a : Char) (t n : List Char)
    (ha : goIsSpace a = false) (hs : hasSlash (a :: t) = false)
    (hn : trim n = n) :
    parseExample ((a :: t) ++ '/' :: n) = (a :: t, n) := by
  have htrim : trim ((a :: t) ++ '/' :: n) = (a :: t) ++ '/' :: n := by
    apply trim_of_dropLead
    · rw [List.cons_append]
      exact dropLead_cons_of ha
    · rw [List.reverse_append, List.reverse_cons]
      cases hcn : n.reverse with
      | nil =>
          simp only [List.nil_append]
          exact dropLead_cons_of (by decide)
      | cons b s =>
          have hnl : dropLead n.reverse = n.reverse := by
            rw [← hn]
            exact dropLead_reverse_trim n
          have hb : goIsSpace b = false := by
            apply dropLead_head_not_space (t := s)
            rw [← hcn]
            exact hnl
          simp only [List.cons_append]
          exact dropLead_cons_of hb
  obtain ⟨htake, hdrop⟩ := splitAt_slash n (a :: t) hs
  have hne : (a :: t) ++ '/' :: n ≠ [] := by simp
  have hhs : hasSlash ((a :: t) ++ '/' :: n) = true := by
    rw [hasSlash, List.any_eq_true]
    exact ⟨'/', by simp, by simp⟩
  unfold parseExample
  rw [htrim]
  rw [if_neg hne, if_pos hhs, htake, hdrop]
  simp [hn]

/-- Structure of every `parseExample` result: the source is non-empty,
starts with a non-space character, is slash-free, and the name is trimmed. -/
theorem parse_props (raw : List Char) :
    ∃ a t, (parseExample raw).1 = a :: t ∧ goIsSpace a = false ∧
      hasSlash (parseExample raw).1 = false ∧
      trim (parseExample raw).2 = (parseExample raw).2 := by
  unfold parseExample
  by_cases h0 : trim raw = []
  · rw [if_pos h0]
    exact ⟨'d', "eckviz".toList, by decide, by decide, by decide, rfl⟩
  · by_cases h1 : hasSlash (trim raw) = true
    · rw [if_neg h0, if_pos h1]
      by_cases h2 : (trim raw).takeWhile notSlash = []
      · simp only [h2, if_pos]
        exact ⟨'d', "eckviz".toList, by decide, by decide, by decide,
          trim_trim _⟩
      · simp only [if_neg h2]
        obtain ⟨c, r', hr⟩ : ∃ c r', trim raw = c :: r' := by
          cases hrc : trim raw with
          | nil => exact absurd hrc h0
          | cons c r' => exact ⟨c, r', rfl⟩
        have hc : goIsSpace c = false := by
          apply dropLead_head_not_space (t := r')
          rw [← hr]
          exact dropLead_trim raw
        have hcs : notSlash c = true := by
          cases hcv : notSlash c with
          | true => rfl
          | false =>
              exfalso
              apply h2
              rw [hr, List.takeWhile_cons, if_neg (by simp [hcv])]
        refine ⟨c, r'.takeWhile notSlash, ?_, hc, hasSlash_takeWhile _,
          trim_trim _⟩
        rw [hr, List.takeWhile_cons, if_pos hcs]
    · rw [if_neg h0, if_neg h1]
      refine ⟨'d', "eckviz".toList, rfl, by decide, rfl, trim_trim _⟩

/-- `normalizeExampleName` always returns `source ++ "/" ++ name`. -/
theorem normalize_eq (raw : List Char) :
    normalizeExampleName raw =
      (parseExample raw).1 ++ '/' :: (parseExample raw).2 := by
  unfold normalizeExampleName
  by_cases h : (parseExample raw).1 = dz
  · rw [if_pos h, h]
  · rw [if_neg h]

/-- The matrix produced by `buildAll`'s double loop, as a flat map. -/
theorem buildAll_eq_flatMap (goos goarch : String)
    (envf : binSpec → buildTarget → buildEnv) (toolchain : List binSpec)
    (targets : List buildTarget) (outputDir : String) :
    buildAll goos goarch envf toolchain targets outputDir =
      (toolchain.flatMap (fun spec => targets.map (fun target =>
        (buildBinary goos goarch (envf spec target) spec target outputDir).1)), none) := by
  unfold buildAll
  refine Prod.ext ?_ rfl
  show List.foldl _ [] toolchain = _
  have h : ∀ (acc : List buildResult),
      toolchain.foldl (fun acc spec => targets.foldl
        (fun acc2 target =>
          acc2 ++ [(buildBinary goos goarch (envf spec target) spec target outputDir).1]) acc)
        acc =
      acc ++ toolchain.flatMap (fun spec => targets.map (fun target =>
        (buildBinary goos goarch (envf spec target) spec target outputDir).1)) := by
    induction toolchain with
    | nil => simp
    | cons s ss ih =>
        intro acc
        simp only [List.foldl_cons, List.flatMap_cons]
        rw [foldl_append_singleton, ih, List.append_assoc]
  simpa using h []

/-- Length of a flat map of constant-length blocks. -/
theorem length_flatMap_const {α β : Type} (g : α → List β) (n : Nat)
    (l : List α) (h : ∀ x ∈ l, (g x).length = n) :
    (l.flatMap g).length = l.length * n := by
  induction l with
  | nil => simp
  | cons x xs ih =>
      simp only [List.flatMap_cons, List.length_append, List.length_cons]
      rw [h x (by simp), ih (fun y hy => h y (by simp [hy]))]
      ring

/-- `exampleDir` succeeds on the two known sources. -/
theorem exampleDir_isOk (env : exEnv) {s : List Char} (n : List Char)
    (h : s = dz ∨ s = db) :
    exampleDir env s n =
      .ok (if s = dz then joinPathL env.deckvizDir n
           else joinPathL env.duboisDir n) := by
  rcases h with h | h
  · subst h
    rw [exampleDir, if_pos rfl, if_pos rfl]
  · subst h
    rw [exampleDir, if_neg (by decide), if_pos rfl, if_neg (by decide)]

/-- Go map assignment never produces an empty map. -/
theorem mapSet_ne_nil (rs : List (List Char × List Char))
    (k v : List Char) : mapSet rs k v ≠ [] := by
  cases rs with
  | nil => simp [mapSet]
  | cons kv rest =>
      obtain ⟨k0, v0⟩ := kv
      rw [mapSet]
      by_cases h : k0 = k
      · simp [h]
      · simp [h]

/-- A reference with a known source but no `.dsh` script is skipped: the
loop continues on the remaining references with an unchanged accumulator. -/
theorem runExamplesLoop_skip (env : exEnv) (raw : List Char)
    (rest : List (List Char)) (acc : List (List Char × List Char))
    (hsrc : (parseExample raw).1 = dz ∨ (parseExample raw).1 = db)
    (hdsh : env.dshExists (parseExample raw).1 (parseExample raw).2 = false) :
    runExamplesLoop env (raw :: rest) acc = runExamplesLoop env rest acc := by
  rw [runExamplesLoop, exampleDir_isOk env _ hsrc]
  simp [hdsh]

/-- If every reference has a known source and a missing `.dsh` script, the
loop from an empty accumulator reports `"no examples rendered"`. -/
theorem runExamplesLoop_allSkip (env : exEnv) :
    ∀ refs : List (List Char),
      (∀ raw ∈ refs, ((parseExample raw).1 = dz ∨ (parseExample raw).1 = db) ∧
        env.dshExists (parseExample raw).1 (parseExample raw).2 = false) →
      runExamplesLoop env refs [] = .error ("no examples rendered".toList) := by
  intro refs
  induction refs with
  | nil => intro _; rfl
  | cons raw rest ih =>
      intro h
      obtain ⟨hsrc, hdsh⟩ := h raw (by simp)
      rw [runExamplesLoop_skip env raw rest [] hsrc hdsh]
      exact ih (fun r hr => h r (by simp [hr]))

/-- If every reference has a known source, an existing `.dsh` script and
successful lint and render runs, the loop succeeds as soon as either the
accumulator or the reference list is non-empty. -/
theorem runExamplesLoop_allGood (env : exEnv) :
    ∀ (refs : List (List Char)) (acc : List (List Char × List Char)),
      (∀ raw ∈ refs, ((parseExample raw).1 = dz ∨ (parseExample raw).1 = db) ∧
        env.dshExists (parseExample raw).1 (parseExample raw).2 = true ∧
        env.lintOk (parseExample raw).1 (parseExample raw).2 = true ∧
        env.renderOk (parseExample raw).1 (parseExample raw).2 = true) →
      (refs = [] → acc ≠ []) →
      resultIsOk (runExamplesLoop env refs acc) = true := by
  intro refs
  induction refs with
  | nil =>
      intro acc _ hacc
      rw [runExamplesLoop, if_neg (hacc rfl)]
      rfl
  | cons raw rest ih =>
      intro acc h _
      obtain ⟨hsrc, hdsh, hlint, hrender⟩ := h raw (by simp)
      rw [runExamplesLoop, exampleDir_isOk env _ hsrc]
      simp only [hdsh, hlint, hrender]
      rw [if_neg (by simp), if_neg (by simp), if_neg (by simp)]
      exact ih _ (fun r hr => h r (by simp [hr]))
        (fun _ => mapSet_ne_nil _ _ _)

/-! ## Claims -/

/-- C1, counterexample: when `os.MkdirAll` fails, `buildBinary` returns a
result whose `path` was already set and whose `err` is non-nil — both
fields populated, refuting the claimed two-case invariant at this input. -/
theorem spec_C1_counterexample :
    ¬ (((buildBinary "linux" "amd64" ⟨false, true, true⟩ deckshSpec .native
          ".dist").1.path ≠ "" ∧
        (buildBinary "linux" "amd64" ⟨false, true, true⟩ deckshSpec .native
          ".dist").1.err = none) ∨
       ((buildBinary "linux" "amd64" ⟨false, true, true⟩ deckshSpec .native
          ".dist").1.path = "" ∧
        (buildBinary "linux" "amd64" ⟨false, true, true⟩ deckshSpec .native
          ".dist").1.err ≠ none)) := by
  decide

/-- C1, amended: a buildResult never has both an empty path and a nil
error — a nil error always comes with a non-empty path — but a failing
result may carry a non-empty path (the path is assigned before the mkdir,
abs-path and build steps), so "never both populated" does not hold. -/
theorem spec_C1_amended (goos goarch : String) (env : buildEnv)
    (spec : binSpec) (target : buildTarget) (outputDir : String) :
    ((buildBinary goos goarch env spec target outputDir).1.err = none ∧
      (buildBinary goos goarch env spec target outputDir).1.path ≠ "") ∨
    (buildBinary goos goarch env spec target outputDir).1.err ≠ none := by
  unfold buildBinary
  repeat' split
  all_goals simp [joinPath_ne_empty]

/-- C2, counterexample: with no release timestamp (`none`) and an existing
local file, the loop body skips the binary instead of downloading it,
refuting "every configured binary is downloaded unconditionally". -/
theorem spec_C2_counterexample :
    downloadStep (some 5) none true = [dlEffect.skip] ∧
    dlEffect.download ∉ downloadStep (some 5) none true := by
  decide

/-- C2, amended: when the release timestamp is unavailable, local-file
existence alone decides — an existing file is always skipped (regardless of
staleness) and a missing file is downloaded. -/
theorem spec_C2_amended :
    (∀ (m : Int) (ok : Bool),
      downloadStep (some m) none ok = [dlEffect.skip]) ∧
    (∀ ok : Bool, downloadStep none none ok =
      if ok then [dlEffect.download, dlEffect.chmod755]
      else [dlEffect.download]) :=
  ⟨fun _ _ => rfl, fun _ => rfl⟩

/-- C3, counterexample: at a local modification time exactly equal to the
release timestamp the code downloads (and chmods) instead of skipping,
refuting "skipped exactly when newer than or equal". -/
theorem spec_C3_counterexample :
    (0 : Int) ≥ 0 ∧
    downloadStep (some 0) (some 0) true ≠ [dlEffect.skip] ∧
    downloadStep (some 0) (some 0) true =
      [dlEffect.download, dlEffect.chmod755] := by
  decide

/-- C3, amended: with an existing local file and a known release timestamp,
the download is skipped exactly when the local modification time is
strictly newer than the release timestamp (`time.After` is strict); at a
time older than or equal to it the file is downloaded and, when the
download command succeeds, marked executable. -/
theorem spec_C3_amended (m r : Int) (ok : Bool) :
    (downloadStep (some m) (some r) ok = [dlEffect.skip] ↔ m > r) ∧
    (m ≤ r → downloadStep (some m) (some r) ok =
      if ok then [dlEffect.download, dlEffect.chmod755]
      else [dlEffect.download]) := by
  constructor
  · constructor
    · intro h
      by_contra hc
      rw [downloadStep] at h
      simp only [if_neg hc] at h
      cases ok <;> simp at h
    · intro h
      rw [downloadStep]
      simp [h]
  · intro h
    have hng : ¬ m > r := not_lt.mpr h
    rw [downloadStep]
    simp [hng]

/-- Witness for C3: skip at a strictly newer local file, download and chmod
at an older one. -/
theorem spec_C3_witness :
    downloadStep (some 1) (some 0) true = [dlEffect.skip] ∧
    ((0 : Int) ≤ 1 ∧ downloadStep (some 0) (some 1) true =
      [dlEffect.download, dlEffect.chmod755]) :=
  ⟨(spec_C3_amended 1 0 true).1.mpr (by decide),
   ⟨by decide, by simpa using (spec_C3_amended 0 1 true).2 (by decide)⟩⟩

/-- C4, counterexample: in an environment where linting the example `bad`
fails, the batch `["fire"]` succeeds, yet the batch `["fire", "bad"]`
returns an overall error even though `fire` produced an output — refuting
both "returns successfully whenever at least one requested reference
produces an output" and "error only when every reference is skipped or
fails". -/
theorem spec_C4_counterexample :
    resultIsOk (runExamples exEnvLintBad ["fire".toList]) = true ∧
    resultIsOk (runExamples exEnvLintBad
      ["fire".toList, "bad".toList]) = false := by
  decide

/-- C4, amended: a reference with a known source whose directory lacks its
`.dsh` script is skipped and the batch continues; if every reference is
skipped this way the batch fails with "no examples rendered"; a non-empty
batch in which every reference resolves, has its script, and lints and
renders successfully returns success.  (A lint or render failure, however,
aborts the whole batch immediately.) -/
theorem spec_C4_amended :
    (∀ (env : exEnv) (raw : List Char) (rest : List (List Char))
        (acc : List (List Char × List Char)),
      ((parseExample raw).1 = dz ∨ (parseExample raw).1 = db) →
      env.dshExists (parseExample raw).1 (parseExample raw).2 = false →
      runExamplesLoop env (raw :: rest) acc = runExamplesLoop env rest acc) ∧
    (∀ (env : exEnv) (refs : List (List Char)),
      (∀ raw ∈ refs,
        ((parseExample raw).1 = dz ∨ (parseExample raw).1 = db) ∧
        env.dshExists (parseExample raw).1 (parseExample raw).2 = false) →
      runExamples env refs = .error ("no examples rendered".toList)) ∧
    (∀ (env : exEnv) (refs : List (List Char)),
      refs ≠ [] →
      (∀ raw ∈ refs,
        ((parseExample raw).1 = dz ∨ (parseExample raw).1 = db) ∧
        env.dshExists (parseExample raw).1 (parseExample raw).2 = true ∧
        env.lintOk (parseExample raw).1 (parseExample raw).2 = true ∧
        env.renderOk (parseExample raw).1 (parseExample raw).2 = true) →
      resultIsOk (runExamples env refs) = true) := by
  refine ⟨runExamplesLoop_skip, ?_, ?_⟩
  · intro env refs h
    exact runExamplesLoop_allSkip env refs h
  · intro env refs hne h
    exact runExamplesLoop_allGood env refs [] h (fun he => absurd he hne)

/-- Witness for C4: a skipped reference leaves the loop state unchanged, an
all-skipped batch reports "no examples rendered", and an all-good batch
succeeds. -/
theorem spec_C4_witness :
    runExamplesLoop exEnvNoDsh ["fire".toList] [] =
      runExamplesLoop exEnvNoDsh [] [] ∧
    runExamples exEnvNoDsh ["fire".toList] =
      .error ("no examples rendered".toList) ∧
    resultIsOk (runExamples exEnvAllOk ["fire".toList]) = true :=
  ⟨spec_C4_amended.1 exEnvNoDsh ("fire".toList) [] []
      (Or.inl (by decide)) (by decide),
   spec_C4_amended.2.1 exEnvNoDsh ["fire".toList] (by decide),
   spec_C4_amended.2.2 exEnvAllOk ["fire".toList] (by decide) (by decide)⟩

/-- C5: for a binary whose support flag for the requested WASM or WASI
target is false, `buildBinary` returns immediately: the error names the
missing capability via `getRequirement`, the path is empty, and the
toolchain build command is never invoked. -/
theorem spec_C5 (goos goarch : String) (env : buildEnv) (spec : binSpec)
    (outputDir : String) :
    (spec.wasmSupport = false →
      buildBinary goos goarch env spec .wasm outputDir =
        ({ binary := spec.name, target := .wasm, path := "",
           err := some ("WASM not supported (requires " ++
             getRequirement spec ++ ")") }, false)) ∧
    (spec.wasiSupport = false →
      buildBinary goos goarch env spec .wasi outputDir =
        ({ binary := spec.name, target := .wasi, path := "",
           err := some ("WASI not supported (requires " ++
             getRequirement spec ++ ")") }, false)) := by
  constructor <;> intro h <;> simp [buildBinary, h]

/-- Witness for C5: the UI-only `ebdeck` binary fails the WASM capability
check with the "requires UI/graphics" message and no build invocation. -/
theorem spec_C5_witness :
    ebdeckSpec.wasmSupport = false ∧
    buildBinary "linux" "amd64" ⟨true, true, true⟩ ebdeckSpec .wasm
        ".dist" =
      ({ binary := "ebdeck", target := .wasm, path := "",
         err := some "WASM not supported (requires UI/graphics)" }, false) :=
  ⟨rfl,
   ((spec_C5 "linux" "amd64" ⟨true, true, true⟩ ebdeckSpec ".dist").1
     rfl).trans (by decide)⟩

/-- C6: `buildAll` produces exactly one buildResult per (binary, target)
pair, in iteration order (the flat map of the toolchain over the targets),
so its result count is `len(toolchain) × len(targets)` regardless of
per-pair failures, and its own error return is always nil. -/
theorem spec_C6 (goos goarch : String)
    (envf : binSpec → buildTarget → buildEnv) (toolchain : List binSpec)
    (targets : List buildTarget) (outputDir : String) :
    buildAll goos goarch envf toolchain targets outputDir =
      (toolchain.flatMap (fun spec => targets.map (fun target =>
        (buildBinary goos goarch (envf spec target) spec target
          outputDir).1)), none) ∧
    (buildAll goos goarch envf toolchain targets outputDir).1.length =
      toolchain.length * targets.length := by
  refine ⟨buildAll_eq_flatMap goos goarch envf toolchain targets outputDir, ?_⟩
  rw [buildAll_eq_flatMap goos goarch envf toolchain targets outputDir]
  exact length_flatMap_const _ targets.length toolchain
    (fun s _ => List.length_map _ _)

/-- C7: native filenames carry `GOOS`/`GOARCH` (with `.exe` only on
windows), and the WASM/WASI filenames are fixed regardless of host. -/
theorem spec_C7 :
    buildFilename "linux" "amd64" "decksh" .native = "decksh-linux-amd64" ∧
    buildFilename "windows" "amd64" "decksh" .native =
      "decksh-windows-amd64.exe" ∧
    ∀ goos goarch : String,
      buildFilename goos goarch "decksh" .wasm = "decksh-wasm.wasm" ∧
      buildFilename goos goarch "decksh" .wasi = "decksh-wasi.wasm" :=
  ⟨by decide, by decide, fun _ _ => ⟨rfl, rfl⟩⟩

/-- C8, counterexample: `parseExample` trims its input, so the bare
slash-free reference `" fire "` does not keep its name unchanged. -/
theorem spec_C8_counterexample :
    hasSlash " fire ".toList = false ∧
    parseExample " fire ".toList ≠ (dz, " fire ".toList) := by
  decide

/-- C8, amended: `parseExample "deckviz/fire"` yields source `"deckviz"`
and name `"fire"`; every bare reference without a slash yields the default
source `"deckviz"` and the whitespace-trimmed name (unchanged whenever the
reference has no surrounding whitespace). -/
theorem spec_C8_amended :
    parseExample "deckviz/fire".toList = (dz, "fire".toList) ∧
    ∀ raw : List Char, hasSlash raw = false →
      parseExample raw = (dz, trim raw) := by
  constructor
  · decide
  · intro raw h
    have ht : hasSlash (trim raw) = false := hasSlash_trim_false h
    unfold parseExample
    by_cases h0 : trim raw = []
    · rw [if_pos h0, h0]
    · rw [if_neg h0, if_neg (by simp [ht])]

/-- Witness for C8: the already-trimmed bare reference `"fire"`. -/
theorem spec_C8_witness :
    hasSlash "fire".toList = false ∧
    parseExample "fire".toList = (dz, trim "fire".toList) :=
  ⟨by decide, spec_C8_amended.2 "fire".toList (by decide)⟩

/-- C9: normalization of example references is stable — re-parsing a
normalized reference gives the same (source, name) pair, and normalizing
twice equals normalizing once. -/
theorem spec_C9 (raw : List Char) :
    parseExample (normalizeExampleName raw) = parseExample raw ∧
    normalizeExampleName (normalizeExampleName raw) =
      normalizeExampleName raw := by
  obtain ⟨a, t, h1, h2, h3, h4⟩ := parse_props raw
  have hst : parseExample (normalizeExampleName raw) = parseExample raw := by
    rw [normalize_eq, h1, parse_canonical a t _ h2 (h1 ▸ h3) h4, ← h1]
  exact ⟨hst, by rw [normalize_eq (normalizeExampleName raw), hst,
    ← normalize_eq]⟩

/-- C10: the dist path probed first by `resolveBinary`
(`getBinaryPath`, no extension) equals the dist path of the native build
filename exactly when the host operating system is not windows; on windows
the build filename's `.exe` suffix makes them differ. -/
theorem spec_C10 (distDir name goarch goos : String) :
    getBinaryPath distDir goos goarch name =
      joinPath distDir (buildFilename goos goarch name .native) ↔
    goos ≠ "windows" := by
  unfold getBinaryPath buildFilename
  by_cases h : goos = "windows"
  · subst h
    simp only [eq_self_iff_true, if_true]
    constructor
    · intro he
      exfalso
      have hlen := congrArg (fun s => s.data.length) he
      simp only [joinPath, String.data_append, List.length_append,
        List.length_cons, List.length_nil] at hlen
      have h4 : (".exe" : String).data.length = 4 := by decide
      omega
    · intro hne
      exact absurd rfl hne
  · rw [if_neg h, String.append_empty]
    simp [h]

/-- Witness for C10: concrete windows and linux hosts. -/
theorem spec_C10_witness :
    getBinaryPath ".dist" "windows" "amd64" "decksh" ≠
      joinPath ".dist" (buildFilename "windows" "amd64" "decksh" .native) ∧
    getBinaryPath ".dist" "linux" "amd64" "decksh" =
      joinPath ".dist" (buildFilename "linux" "amd64" "decksh" .native) :=
  ⟨fun h => (spec_C10 ".dist" "decksh" "amd64" "windows").mp h rfl,
   (spec_C10 ".dist" "decksh" "amd64" "linux").mpr (by decide)⟩

end DeckTest
